import Mathlib

/-!
Verification of the sentence-extractor repository: a corpus loader plus a
line-oriented Markdown sentence parser.  The parser state machine appears
twice in the source (inline in `get_sentences` in `src/lib.rs`, and as the
standalone `parse_markdown_to_sentences` in `src/main.rs`); both copies are
embedded here.  Rust strings are modelled as Lean `String` (a list of
characters); the byte-level Rust operations used by the code act on ASCII
patterns, where byte-wise and character-wise behaviour coincide.
-/

/-- Character-list prefix test; models Rust `str::starts_with` (the code only
uses ASCII patterns `'#'`, `"---"`, and three backticks). -/
def isPrefixChars : List Char → List Char → Bool
  | [], _ => true
  | _ :: _, [] => false
  | p :: ps, c :: cs => p == c && isPrefixChars ps cs

/-- Models Rust `str::starts_with`. -/
def startsWithStr (s p : String) : Bool := isPrefixChars p.data s.data

/-- Models Rust `str::ends_with` (used only with the pattern `'.'`). -/
def endsWithStr (s p : String) : Bool := isPrefixChars p.data.reverse s.data.reverse

/-- Models Rust `str::contains(". ")`: scans for a period immediately
followed by a space. -/
def containsDotSpace : List Char → Bool
  | '.' :: ' ' :: _ => true
  | _ :: rest => containsDotSpace rest
  | [] => false

/-- Models Rust `str::split(". ")`: split on every (leftmost, non-overlapping)
occurrence of a period followed by a space; adjacent occurrences yield empty
fragments, and the result is never the empty list. -/
def splitOnDotSpace : List Char → List (List Char)
  | '.' :: ' ' :: rest => [] :: splitOnDotSpace rest
  | x :: rest =>
    match splitOnDotSpace rest with
    | [] => [[x]]
    | y :: ys => (x :: y) :: ys
  | [] => [[]]

/-- Split a character list on a separator character (auxiliary for the
embedding of Rust `str::lines`). -/
def splitOnChar (c : Char) : List Char → List (List Char)
  | [] => [[]]
  | x :: xs =>
    if x == c then [] :: splitOnChar c xs
    else
      match splitOnChar c xs with
      | [] => [[x]]
      | y :: ys => (x :: y) :: ys

/-- Remove one trailing carriage return, if present. -/
def stripCR (cs : List Char) : List Char :=
  if cs.getLast? == some '\r' then cs.dropLast else cs

/-- Post-processing of the segments produced by splitting on newline, as done
by Rust `str::lines`: every segment that was followed by a newline loses one
trailing carriage return; the final segment (not followed by a newline) is
kept verbatim, and is dropped when empty (the final line ending is optional). -/
def lineSegs : List (List Char) → List (List Char)
  | [] => []
  | [last] => if last.isEmpty then [] else [last]
  | seg :: rest => stripCR seg :: lineSegs rest

/-- Models Rust `str::lines`. -/
def rustLines (s : String) : List String :=
  (lineSegs (splitOnChar '\n' s.data)).map String.mk

/-- Parser state of the state machine in `src/main.rs`
(`parse_markdown_to_sentences`): the completed sentences, the sentence being
accumulated, and the two boolean flags. -/
structure PState where
  sentences : List String
  sentence : String
  in_code_block : Bool
  in_preamble : Bool
deriving DecidableEq

/-- Initial parser state: empty output, empty accumulator, both flags false. -/
def initState : PState := ⟨[], "", false, false⟩

/-- The inner `for (idx, sentence_part) in line.split(". ").enumerate()` loop
of `parse_markdown_to_sentences` in `src/main.rs`: `count` is the total number
of fragments, `idx` the index of the first remaining fragment; returns the
updated `(sentences, sentence)` pair. -/
def sentenceSplitLoop (count : Nat) : Nat → List String → String → List String → List String × String
  | _, [], sentence, sentences => (sentences, sentence)
  | idx, part :: rest, sentence, sentences =>
    if part.data.isEmpty then
      sentenceSplitLoop count (idx + 1) rest sentence sentences
    else if idx < count - 1 then
      sentenceSplitLoop count (idx + 1) rest "" (sentences ++ [sentence ++ part ++ "."])
    else
      sentenceSplitLoop count (idx + 1) rest (sentence ++ part ++ " ") sentences

/-- One iteration of the `for line in content.lines()` loop of
`parse_markdown_to_sentences` in `src/main.rs`, with the rule order of the
source: blank line, heading, front-matter delimiter, inside preamble, fence
delimiter, inline `". "` split, trailing period, continuation. -/
def processLine (st : PState) (line : String) : PState :=
  if line.data.isEmpty then st
  else if startsWithStr line "#" then st
  else if startsWithStr line "---" then { st with in_preamble := !st.in_preamble }
  else if st.in_preamble then st
  else if startsWithStr line "```" then
    let st1 :=
      if st.in_code_block then
        { st with sentences := st.sentences ++ [st.sentence], sentence := "" }
      else st
    { st1 with in_code_block := !st1.in_code_block }
  else if containsDotSpace line.data && !st.in_code_block then
    let parts := (splitOnDotSpace line.data).map String.mk
    let res := sentenceSplitLoop parts.length 0 parts st.sentence st.sentences
    { st with sentences := res.1, sentence := res.2 }
  else if endsWithStr line "." then
    { st with sentences := st.sentences ++ [st.sentence ++ line], sentence := "" }
  else
    { st with sentence := st.sentence ++ line ++ (if st.in_code_block then "\n" else " ") }

/-- `parse_markdown_to_sentences` from `src/main.rs`. -/
def parse_markdown_to_sentences (content : String) : List String :=
  (List.foldl processLine initState (rustLines content)).sentences

example : parse_markdown_to_sentences "# Title\n\nSome text here.\n" = ["Some text here."] := by decide
example : parse_markdown_to_sentences "---\ntitle: X\n---\nBody sentence.\n" = ["Body sentence."] := by decide
example : parse_markdown_to_sentences "```\nlet x = 1;\nlet y = 2;\n```\n" = ["let x = 1;\nlet y = 2;\n"] := by decide
example : parse_markdown_to_sentences "The cat sat. The dog ran.\n" = ["The cat sat."] := by decide

/-- The inner fragment loop of the second copy of the state machine, the one
written inline in `get_sentences` in `src/lib.rs` (lines 49–61); textually the
same loop as in `src/main.rs`. -/
def sentenceSplitLoopLib (count : Nat) : Nat → List String → String → List String → List String × String
  | _, [], sentence, sentences => (sentences, sentence)
  | idx, part :: rest, sentence, sentences =>
    if part.data.isEmpty then
      sentenceSplitLoopLib count (idx + 1) rest sentence sentences
    else if idx < count - 1 then
      sentenceSplitLoopLib count (idx + 1) rest "" (sentences ++ [sentence ++ part ++ "."])
    else
      sentenceSplitLoopLib count (idx + 1) rest (sentence ++ part ++ " ") sentences

/-- One iteration of the `for line in article.lines()` loop written inline in
`get_sentences` in `src/lib.rs` (lines 24–76); the second, duplicated copy of
the state machine. -/
def processLineLib (st : PState) (line : String) : PState :=
  if line.data.isEmpty then st
  else if startsWithStr line "#" then st
  else if startsWithStr line "---" then { st with in_preamble := !st.in_preamble }
  else if st.in_preamble then st
  else if startsWithStr line "```" then
    let st1 :=
      if st.in_code_block then
        { st with sentences := st.sentences ++ [st.sentence], sentence := "" }
      else st
    { st1 with in_code_block := !st1.in_code_block }
  else if containsDotSpace line.data && !st.in_code_block then
    let parts := (splitOnDotSpace line.data).map String.mk
    let res := sentenceSplitLoopLib parts.length 0 parts st.sentence st.sentences
    { st with sentences := res.1, sentence := res.2 }
  else if endsWithStr line "." then
    { st with sentences := st.sentences ++ [st.sentence ++ line], sentence := "" }
  else
    { st with sentence := st.sentence ++ line ++ (if st.in_code_block then "\n" else " ") }

/-- The per-article body of the parsing loop in `get_sentences` in
`src/lib.rs`: parse one article's text into its sentence list. -/
def libParseArticle (article : String) : List String :=
  (List.foldl processLineLib initState (rustLines article)).sentences

/-- A filesystem path as seen by the loaders: either a directory with its
entries, or a regular file with its text content.  Directory entries record
whether `Path::is_file` holds, the result of `Path::extension`, and the text
`fs::read_to_string` would return.  The model assumes the path exists and is
readable, and that every regular file holds valid text. -/
structure DirEntry where
  isFile : Bool
  extension : Option String
  content : String
deriving DecidableEq

/-- A path argument: a directory (with its listing) or a regular file. -/
inductive FsNode where
  | dir (entries : List DirEntry)
  | file (content : String)
deriving DecidableEq

/-- The file-collection loop of `get_sentences` in `src/lib.rs` (lines 4–10):
keep regular files whose `extension().unwrap()` equals `"md"`.  `none` models
a panic: the `unwrap` on `Option::None` when a regular file has no
extension. -/
def collectMdFiles : List DirEntry → Option (List DirEntry)
  | [] => some []
  | e :: rest =>
    if e.isFile then
      match e.extension with
      | none => none
      | some ext =>
        if ext == "md" then (collectMdFiles rest).map (fun fs => e :: fs)
        else collectMdFiles rest
    else collectMdFiles rest

/-- `get_sentences` from `src/lib.rs`.  `none` models a panic: on a regular
file the `read_dir().unwrap()` on line 5 panics (`read_dir` fails on a
non-directory), and on a directory the extension `unwrap` may panic via
`collectMdFiles`.  Contents of the kept files are read in order and each is
parsed by the inline state machine. -/
def getSentences : FsNode → Option (List (List String))
  | FsNode.file _ => none
  | FsNode.dir entries =>
    match collectMdFiles entries with
    | none => none
    | some files => some (files.map fun f => libParseArticle f.content)

/-- I/O failure kinds of the fallible loader in `src/main.rs`. -/
inductive IoError where
  | notADirectory
deriving DecidableEq

/-- `get_markdown_files` from `src/main.rs`: list the directory, keep regular
files whose extension satisfies `extension().map(|e| e == ext).unwrap_or(false)`;
on a non-directory path, `read_dir()?` propagates the error. -/
def get_markdown_files (path : FsNode) (ext : String) : Except IoError (List DirEntry) :=
  match path with
  | FsNode.file _ => Except.error IoError.notADirectory
  | FsNode.dir entries =>
    Except.ok (entries.filter fun e =>
      e.isFile && (e.extension.map (fun x => x == ext)).getD false)

/-- `read_files` from `src/main.rs`: read each selected file as text, in
order.  In the model every entry's content is readable, so this always
succeeds. -/
def read_files (files : List DirEntry) : Except IoError (List String) :=
  Except.ok (files.map fun f => f.content)

/-- The loader pipeline of `src/main.rs`: `get_markdown_files` followed by
`read_files` (the spec's `load(directoryPath, extension)`). -/
def load (path : FsNode) (ext : String) : Except IoError (List String) :=
  match get_markdown_files path ext with
  | Except.error e => Except.error e
  | Except.ok fs => read_files fs

/-- Modelled from the spec: the expected verbatim contents of a code-block
region, "concatenating all sentences from a code-block region (newline-joined)
reproduces the original lines between the opening and closing fence" — each
inner line followed by one newline character. -/
def joinLines : List String → String
  | [] => ""
  | l :: ls => l ++ "\n" ++ joinLines ls

/-- Modelled from the spec's wording of rule 6: given the accumulator and the
list of fragments, process every fragment except the last (if non-empty:
append it and a literal period to the accumulator, emit the accumulator,
reset), then the last fragment (if non-empty: append it and a single space to
the accumulator, do not emit); empty fragments are skipped.  Returns the
emitted sentences and the final accumulator. -/
def splitFragmentsSpec : String → List String → List String × String
  | acc, [] => ([], acc)
  | acc, [last] =>
    if last.data.isEmpty then ([], acc) else ([], acc ++ last ++ " ")
  | acc, frag :: rest =>
    if frag.data.isEmpty then splitFragmentsSpec acc rest
    else
      let r := splitFragmentsSpec "" rest
      ((acc ++ frag ++ ".") :: r.1, r.2)

/-- A line that a code block reproduces verbatim: non-blank, not a heading,
not a front-matter delimiter, not a fence, and not ending in a period. -/
def codeLine (l : String) : Prop :=
  l.data.isEmpty = false ∧ startsWithStr l "#" = false ∧
  startsWithStr l "---" = false ∧ startsWithStr l "```" = false ∧
  endsWithStr l "." = false

instance (l : String) : Decidable (codeLine l) := by
  unfold codeLine; infer_instance

lemma processLine_skip (st : PState) (l : String)
    (h : (l.data.isEmpty || startsWithStr l "#") = true) : processLine st l = st := by
  unfold processLine
  cases h1 : l.data.isEmpty with
  | true => simp [h1]
  | false =>
    rw [h1] at h
    simp at h
    simp [h1, h]

/-- C6: blank lines and lines beginning with `#` are skipped before any state
is consulted, so deleting them from the input leaves the parser run — from any
starting state, in particular inside a code block — unchanged; no produced
sentence can contain any of their content. -/
theorem heading_blank_lines_never_contribute :
    ∀ (st : PState) (ls : List String),
      List.foldl processLine st (ls.filter fun l => !(l.data.isEmpty || startsWithStr l "#")) =
        List.foldl processLine st ls := by
  intro st ls
  induction ls generalizing st with
  | nil => rfl
  | cons l rest ih =>
    rw [List.filter_cons]
    cases hc : (l.data.isEmpty || startsWithStr l "#") with
    | true =>
      rw [if_neg (by simp [hc]), List.foldl_cons, processLine_skip st l hc]
      exact ih st
    | false =>
      rw [if_pos (by simp [hc]), List.foldl_cons, List.foldl_cons]
      exact ih (processLine st l)

/-- C7: the sentence parser is a total function — for every input text,
including malformed input, it returns a well-formed sentence list; in
particular an unterminated code fence, an unterminated front-matter preamble,
and a stray fence marker are absorbed without failure. -/
theorem parse_never_fails :
    (∀ content : String, ∃ out : List String, parse_markdown_to_sentences content = out) ∧
    parse_markdown_to_sentences "```\nlet x = 1;" = [] ∧
    parse_markdown_to_sentences "---\ntitle: Unterminated" = [] ∧
    parse_markdown_to_sentences "```" = [] :=
  ⟨fun _ => ⟨_, rfl⟩, by decide, by decide, by decide⟩

/-- C9: while inside a code block (and outside the preamble), a non-blank line
that does not begin with `#`, `---`, or a fence and ends with a period flushes
the accumulator with the line appended and no trailing newline; consequently a
single fenced code block containing such a line yields more than one
sentence. -/
theorem period_line_inside_code_block_flushes :
    (∀ (st : PState) (l : String), st.in_code_block = true → st.in_preamble = false →
      l.data.isEmpty = false → startsWithStr l "#" = false → startsWithStr l "---" = false →
      startsWithStr l "```" = false → endsWithStr l "." = true →
      processLine st l =
        { st with sentences := st.sentences ++ [st.sentence ++ l], sentence := "" }) ∧
    1 < (parse_markdown_to_sentences "```\nfoo.\nbar\n```").length := by
  constructor
  · intro st l hcode hpre h1 h2 h3 h4 h5
    unfold processLine
    simp [h1, h2, h3, hpre, h4, hcode, h5]
  · decide

theorem period_line_inside_code_block_flushes_witness :
    processLine (PState.mk [] "" true false) "done." = PState.mk ["done."] "" true false := by
  rw [period_line_inside_code_block_flushes.1 (PState.mk [] "" true false) "done."
    rfl rfl (by decide) (by decide) (by decide) (by decide) (by decide)]
  decide

/-- C2: `get_sentences` in `src/lib.rs` is the only entry point, and on a path
denoting a regular file (rather than a directory) it panics — `read_dir` fails
and the `unwrap` on line 5 aborts — instead of returning a one-element
corpus. -/
theorem get_sentences_on_file_path_panics :
    ∀ content : String, getSentences (FsNode.file content) = none :=
  fun _ => rfl

/-- C10: for every directory containing a regular file without any extension,
`get_sentences` panics: `path.extension().unwrap()` is an `unwrap` on `None`. -/
theorem get_sentences_extensionless_file_panics
    (entries : List DirEntry) (e : DirEntry) (he : e ∈ entries)
    (hf : e.isFile = true) (hx : e.extension = none) :
    getSentences (FsNode.dir entries) = none := by
  have hcol : collectMdFiles entries = none := by
    induction entries with
    | nil => cases he
    | cons a rest ih =>
      rcases List.mem_cons.mp he with rfl | hmem
      · unfold collectMdFiles
        simp [hf, hx]
      · have hrest := ih hmem
        unfold collectMdFiles
        cases hfa : a.isFile with
        | false => simpa [hfa] using hrest
        | true =>
          cases hxa : a.extension with
          | none => simp [hfa, hxa]
          | some x =>
            by_cases hmd : (x == "md") = true
            · simp [hfa, hxa, hmd, hrest]
            · simp only [Bool.not_eq_true] at hmd
              simpa [hfa, hxa, hmd] using hrest
  simp only [getSentences, hcol]

theorem get_sentences_extensionless_file_panics_witness :
    getSentences (FsNode.dir [DirEntry.mk true none "no extension here"]) = none :=
  get_sentences_extensionless_file_panics [DirEntry.mk true none "no extension here"]
    (DirEntry.mk true none "no extension here") (by decide) rfl rfl

/-- C3: for every directory whose entries contain no regular file with
extension `"md"`, the fallible loader of `src/main.rs`
(`get_markdown_files` then `read_files`, the spec's `load(D, "md")`) returns
an empty corpus rather than an error. -/
theorem load_non_markdown_directory_empty (entries : List DirEntry)
    (h : ∀ e ∈ entries, e.isFile = true → e.extension ≠ some "md") :
    load (FsNode.dir entries) "md" = Except.ok [] := by
  have hf : (entries.filter fun e =>
      e.isFile && (e.extension.map (fun x => x == "md")).getD false) = [] := by
    rw [List.filter_eq_nil_iff]
    intro e he
    cases hfile : e.isFile with
    | false => simp [hfile]
    | true =>
      cases hx : e.extension with
      | none => simp [hfile, hx]
      | some x =>
        have hne : x ≠ "md" := by
          intro heq
          exact h e he hfile (by rw [hx, heq])
        simp [hfile, hx, hne]
  have h1 : get_markdown_files (FsNode.dir entries) "md" = Except.ok [] := by
    simp only [get_markdown_files]
    rw [hf]
  simp only [load, h1]
  rfl

lemma strAppend_assoc (a b c : String) : a ++ b ++ c = a ++ (b ++ c) := by
  apply String.ext
  simp [String.data_append]

lemma strAppend_empty (a : String) : a ++ "" = a := by
  apply String.ext
  simp [String.data_append]

lemma strEmpty_append (a : String) : "" ++ a = a := by
  apply String.ext
  simp [String.data_append]

lemma processLine_continuation (st : PState) (l : String)
    (h1 : l.data.isEmpty = false) (h2 : startsWithStr l "#" = false)
    (h3 : startsWithStr l "---" = false) (h4 : startsWithStr l "```" = false)
    (h5 : containsDotSpace l.data = false) (h6 : endsWithStr l "." = false)
    (hpre : st.in_preamble = false) :
    processLine st l =
      { st with sentence := st.sentence ++ l ++
          (if st.in_code_block then "\n" else " ") } := by
  unfold processLine
  simp [h1, h2, h3, hpre, h4, h5, h6]

/-- C5: appending a trailing continuation line to the input grows only the
accumulator, never the produced sentence list — text accumulated but not
flushed when the lines run out is silently dropped from the output. -/
theorem trailing_unflushed_text_dropped (ls : List String) (l : String)
    (h1 : l.data.isEmpty = false) (h2 : startsWithStr l "#" = false)
    (h3 : startsWithStr l "---" = false) (h4 : startsWithStr l "```" = false)
    (h5 : containsDotSpace l.data = false) (h6 : endsWithStr l "." = false)
    (h7 : (List.foldl processLine initState ls).in_preamble = false) :
    List.foldl processLine initState (ls ++ [l]) =
      { List.foldl processLine initState ls with
        sentence := (List.foldl processLine initState ls).sentence ++ l ++
          (if (List.foldl processLine initState ls).in_code_block then "\n" else " ") } ∧
    (List.foldl processLine initState (ls ++ [l])).sentences =
      (List.foldl processLine initState ls).sentences := by
  have key : List.foldl processLine initState (ls ++ [l]) =
      { List.foldl processLine initState ls with
        sentence := (List.foldl processLine initState ls).sentence ++ l ++
          (if (List.foldl processLine initState ls).in_code_block then "\n" else " ") } := by
    rw [List.foldl_append]
    simp only [List.foldl_cons, List.foldl_nil]
    exact processLine_continuation _ l h1 h2 h3 h4 h5 h6 h7
  exact ⟨key, by rw [key]⟩

theorem trailing_unflushed_text_dropped_witness :
    List.foldl processLine initState ["Hello", "world"] =
      PState.mk [] "Hello world " false false := by
  have h := (trailing_unflushed_text_dropped ["Hello"] "world" (by decide) (by decide)
    (by decide) (by decide) (by decide) (by decide) (by decide)).1
  rw [show (["Hello"] : List String) ++ ["world"] = ["Hello", "world"] from rfl] at h
  rw [h]
  decide

lemma foldl_code_block (inner : List String) :
    ∀ (sents : List String) (acc : String), (∀ l ∈ inner, codeLine l) →
      List.foldl processLine (PState.mk sents acc true false) inner =
        PState.mk sents (acc ++ joinLines inner) true false := by
  induction inner with
  | nil =>
    intro sents acc _
    simp [joinLines, strAppend_empty]
  | cons l rest ih =>
    intro sents acc h
    obtain ⟨h1, h2, h3, h4, h5⟩ := h l (List.mem_cons_self l rest)
    have hstep : processLine (PState.mk sents acc true false) l =
        PState.mk sents (acc ++ l ++ "\n") true false := by
      unfold processLine
      simp [h1, h2, h3, h4, h5]
    rw [List.foldl_cons, hstep, ih sents (acc ++ l ++ "\n")
      (fun x hx => h x (List.mem_cons_of_mem l hx))]
    simp only [joinLines, PState.mk.injEq, and_true, true_and]
    apply String.ext
    simp [String.data_append]

/-- C1 (amended): a fenced code-block region entered with an empty
accumulator, outside the preamble, whose inner lines are all non-blank, do not
begin with `#`, `---`, or a fence, and do not end with a period, contributes
exactly one sentence: the region's original lines, each followed by one
newline, concatenated verbatim. -/
theorem code_block_region_roundtrip (sents : List String) (inner : List String)
    (h : ∀ l ∈ inner, codeLine l) :
    List.foldl processLine (PState.mk sents "" false false) ("```" :: (inner ++ ["```"])) =
      PState.mk (sents ++ [joinLines inner]) "" false false := by
  have e1 : ("```" : String).data.isEmpty = false := rfl
  have e2 : startsWithStr "```" "#" = false := rfl
  have e3 : startsWithStr "```" "---" = false := rfl
  have e4 : startsWithStr "```" "```" = true := rfl
  have hopen : processLine (PState.mk sents "" false false) "```" =
      PState.mk sents "" true false := by
    unfold processLine
    simp [e1, e2, e3, e4]
  have hclose : processLine (PState.mk sents (joinLines inner) true false) "```" =
      PState.mk (sents ++ [joinLines inner]) "" false false := by
    unfold processLine
    simp [e1, e2, e3, e4]
  rw [List.foldl_cons, hopen, List.foldl_append, foldl_code_block inner sents "" h,
    strEmpty_append]
  simp only [List.foldl_cons, List.foldl_nil]
  exact hclose

theorem code_block_region_roundtrip_witness :
    List.foldl processLine (PState.mk [] "" false false)
        ["```", "let x = 1;", "let y = 2;", "```"] =
      PState.mk ["let x = 1;\nlet y = 2;\n"] "" false false := by
  have h := code_block_region_roundtrip [] ["let x = 1;", "let y = 2;"] (by decide)
  rw [show ("```" :: (["let x = 1;", "let y = 2;"] ++ ["```"])) =
    ["```", "let x = 1;", "let y = 2;", "```"] from rfl] at h
  rw [h]
  decide

/-- C1 counterexample: a code block whose inner line ends in a period is split
into two sentences, so its sentence output, concatenated, is not the verbatim
newline-joined region contents. -/
theorem code_block_region_roundtrip_cex :
    parse_markdown_to_sentences "```\na.\nb\n```\n" = ["a.", "b\n"] ∧
    parse_markdown_to_sentences "```\na.\nb\n```\n" ≠ [joinLines ["a.", "b"]] := by
  constructor
  · decide
  · decide

lemma splitFragmentsSpec_pair (acc p q : String) (qs : List String) :
    splitFragmentsSpec acc (p :: q :: qs) =
      if p.data.isEmpty then splitFragmentsSpec acc (q :: qs)
      else ((acc ++ p ++ ".") :: (splitFragmentsSpec "" (q :: qs)).1,
        (splitFragmentsSpec "" (q :: qs)).2) := rfl

lemma splitLoop_eq_spec (parts : List String) :
    ∀ (idx : ℕ) (acc : String) (sents : List String),
      sentenceSplitLoop (idx + parts.length) idx parts acc sents =
        (sents ++ (splitFragmentsSpec acc parts).1, (splitFragmentsSpec acc parts).2) := by
  induction parts with
  | nil =>
    intro idx acc sents
    simp [sentenceSplitLoop, splitFragmentsSpec]
  | cons p rest ih =>
    intro idx acc sents
    cases rest with
    | nil =>
      cases hp : p.data.isEmpty with
      | true =>
        simp [sentenceSplitLoop, splitFragmentsSpec, hp]
      | false =>
        simp [sentenceSplitLoop, splitFragmentsSpec, hp, Nat.lt_irrefl]
    | cons q qs =>
      have hcount : idx + (p :: q :: qs).length = (idx + 1) + (q :: qs).length := by
        simp [List.length_cons]
        omega
      rw [hcount]
      cases hp : p.data.isEmpty with
      | true =>
        rw [sentenceSplitLoop, if_pos hp, ih (idx + 1) acc sents]
        conv_rhs => rw [splitFragmentsSpec_pair]
        rw [if_pos hp]
      | false =>
        have hlt : idx < (idx + 1) + (q :: qs).length - 1 := by
          simp only [List.length_cons]
          omega
        rw [sentenceSplitLoop, if_neg (by simp [hp]), if_pos hlt,
          ih (idx + 1) "" (sents ++ [acc ++ p ++ "."])]
        conv_rhs => rw [splitFragmentsSpec_pair]
        rw [if_neg (by simp [hp])]
        simp

/-- C4: on a line that reaches rule 6 (non-blank, not a heading, not a
front-matter delimiter, outside the preamble, not a fence, containing `". "`,
and not inside a code block), the inline fragment loop behaves exactly as the
spec describes it: every non-empty fragment but the last is emitted with a
literal period after flowing through the accumulator, the last non-empty
fragment stays in the accumulator followed by one space, and empty fragments
change nothing. -/
theorem inline_dot_space_split_rule (st : PState) (l : String)
    (h1 : l.data.isEmpty = false) (h2 : startsWithStr l "#" = false)
    (h3 : startsWithStr l "---" = false) (h4 : st.in_preamble = false)
    (h5 : startsWithStr l "```" = false) (h6 : containsDotSpace l.data = true)
    (h7 : st.in_code_block = false) :
    processLine st l =
      { st with
        sentences := st.sentences ++
          (splitFragmentsSpec st.sentence ((splitOnDotSpace l.data).map String.mk)).1,
        sentence := (splitFragmentsSpec st.sentence ((splitOnDotSpace l.data).map String.mk)).2 } := by
  have key := splitLoop_eq_spec ((splitOnDotSpace l.data).map String.mk) 0 st.sentence st.sentences
  rw [Nat.zero_add] at key
  unfold processLine
  simp only [h1, h2, h3, h4, h5, h6, h7, Bool.false_eq_true, if_false, Bool.not_false,
    Bool.and_true, if_true, List.length_map]
  rw [show (splitOnDotSpace l.data).length = ((splitOnDotSpace l.data).map String.mk).length by
    simp]
  rw [key]

theorem inline_dot_space_split_rule_witness :
    processLine (PState.mk [] "" false false) "The cat sat. The dog ran." =
      PState.mk ["The cat sat."] "The dog ran. " false false := by
  rw [inline_dot_space_split_rule (PState.mk [] "" false false) "The cat sat. The dog ran."
    (by decide) (by decide) (by decide) rfl (by decide) (by decide) rfl]
  decide

lemma sentenceSplitLoopLib_eq (parts : List String) :
    ∀ (count idx : ℕ) (acc : String) (sents : List String),
      sentenceSplitLoopLib count idx parts acc sents =
        sentenceSplitLoop count idx parts acc sents := by
  induction parts with
  | nil => intro count idx acc sents; rfl
  | cons p rest ih =>
    intro count idx acc sents
    simp only [sentenceSplitLoopLib, sentenceSplitLoop]
    cases hp : p.data.isEmpty with
    | true => simp [hp, ih]
    | false =>
      by_cases hlt : idx < count - 1
      · simp [hp, hlt, ih]
      · simp [hp, hlt, ih]

lemma processLineLib_eq (st : PState) (l : String) :
    processLineLib st l = processLine st l := by
  unfold processLineLib processLine
  simp only [sentenceSplitLoopLib_eq]

/-- C8: the two copies of the parsing state machine — the loop written inline
in `get_sentences` in `src/lib.rs` and the standalone
`parse_markdown_to_sentences` in `src/main.rs` — produce identical sentence
sequences on every document text. -/
theorem duplicated_state_machines_agree :
    ∀ content : String, libParseArticle content = parse_markdown_to_sentences content := by
  intro content
  unfold libParseArticle parse_markdown_to_sentences
  rw [funext fun st => funext fun l => processLineLib_eq st l]

theorem load_non_markdown_directory_empty_witness :
    load (FsNode.dir [DirEntry.mk true (some "txt") "alpha",
      DirEntry.mk false none "", DirEntry.mk true none "beta"]) "md" = Except.ok [] :=
  load_non_markdown_directory_empty
    [DirEntry.mk true (some "txt") "alpha",
      DirEntry.mk false none "", DirEntry.mk true none "beta"] (by decide)
